import Mathlib

/-!
Verification of the access-control and messaging core of the slack-clone
repository.  The definitions below are shallow embeddings of the SQL schema,
row-level-security (RLS) policies, triggers and client hooks of the source:

* `is_channel_member`, `canViewChannelPolicy`, `canViewMessagePolicy`,
  `canPostMessagePolicy` embed the final policy set installed by the last
  migration (`20250729000005_definitive_rls_fix.sql`), which first drops every
  earlier policy and recreates them.
* `check_message_target` embeds the `CHECK` constraint on the `messages`
  table; `update_dm_participants` embeds the `AFTER INSERT` trigger that
  upserts into `direct_message_participants`; `auto_join_public_channels`
  embeds the trigger of the same name.
* `fetchMessages` embeds the channel query of `useMessages.fetchMessages`
  (filter on `channel_id`, `ORDER BY created_at ASC`); `dmInsertClient`
  embeds a direct client insert into `direct_message_participants` as
  performed by `useProfiles.fetchProfiles`, subject to the table's
  constraints and the RLS insert policy.

User ids, channel ids, message ids and timestamps are modelled as `Nat`
(the source uses UUIDs and timestamps, both totally ordered).
-/

/-- A row of the `channels` table: `{id, name, is_private, created_by}`
(`created_by` is nullable in the schema). -/
structure Channel where
  id : Nat
  name : String
  isPrivate : Bool
  createdBy : Option Nat
deriving DecidableEq, Repr

/-- A row of the `channel_members` table: `UNIQUE(channel_id, user_id)`,
`role IN ('admin', 'member')`. -/
structure ChannelMember where
  channelId : Nat
  userId : Nat
  role : String
deriving DecidableEq, Repr

/-- A row of the `messages` table.  `user_id` is the author; the table allows
`channel_id` and `recipient_id` to be NULL, guarded by the
`check_message_target` constraint. -/
structure Message where
  id : Nat
  content : String
  userId : Nat
  channelId : Option Nat
  recipientId : Option Nat
  createdAt : Nat
deriving DecidableEq, Repr

/-- A row of the `direct_message_participants` table:
`UNIQUE(user1_id, user2_id)`, `CHECK (user1_id != user2_id)`. -/
structure DMRow where
  user1 : Nat
  user2 : Nat
  lastMessageAt : Nat
deriving DecidableEq, Repr

/-- The durable state the policies and triggers read and write. -/
structure DB where
  channels : List Channel
  members : List ChannelMember
  messages : List Message
  dms : List DMRow
deriving DecidableEq, Repr

/-- `public.is_channel_member(channel_id_to_check, user_id_to_check)` from
`20250729000005_definitive_rls_fix.sql`: `EXISTS (SELECT 1 FROM
channel_members WHERE channel_id = ... AND user_id = ...)`. -/
def is_channel_member (db : DB) (cid uid : Nat) : Bool :=
  db.members.any (fun m => m.channelId == cid && m.userId == uid)

/-- The `channels` SELECT policy of the definitive migration, "Users can view
public channels and private channels they are members of":
`is_private = false OR is_channel_member(id, auth.uid())`. -/
def canViewChannelPolicy (db : DB) (uid : Nat) (c : Channel) : Bool :=
  !c.isPrivate || is_channel_member db c.id uid

/-- The `messages` SELECT policy of the definitive migration, "Users can view
messages in their channels and DMs":
`(channel_id IS NOT NULL AND is_channel_member(channel_id, auth.uid())) OR
(recipient_id IS NOT NULL AND (auth.uid() = user_id OR auth.uid() =
recipient_id))`. -/
def canViewMessagePolicy (db : DB) (uid : Nat) (m : Message) : Bool :=
  (match m.channelId with
   | some cid => is_channel_member db cid uid
   | none => false) ||
  (match m.recipientId with
   | some rid => uid == m.userId || uid == rid
   | none => false)

/-- The `messages` INSERT policy of the definitive migration, "Users can send
messages in their channels and DMs".  Its WITH CHECK expression is textually
identical to the SELECT policy:
`(channel_id IS NOT NULL AND is_channel_member(channel_id, auth.uid())) OR
(recipient_id IS NOT NULL AND (auth.uid() = user_id OR auth.uid() =
recipient_id))` — note that it does not require `auth.uid() = user_id`. -/
def canPostMessagePolicy (db : DB) (uid : Nat) (m : Message) : Bool :=
  (match m.channelId with
   | some cid => is_channel_member db cid uid
   | none => false) ||
  (match m.recipientId with
   | some rid => uid == m.userId || uid == rid
   | none => false)

/-- The earlier `messages` INSERT policy "Users can send messages" from
`20250107001500_reset_all_policies.sql` (superseded by the definitive
migration): `auth.role() = 'authenticated' AND user_id = auth.uid() AND
((channel_id IS NOT NULL AND (channel public OR member)) OR (channel_id IS
NULL AND recipient_id IS NOT NULL AND recipient_id != auth.uid()))`.
The caller is assumed authenticated. -/
def canPostMessageResetPolicies (db : DB) (uid : Nat) (m : Message) : Bool :=
  m.userId == uid &&
  ((match m.channelId with
    | some cid =>
        db.channels.any (fun c => c.id == cid && !c.isPrivate) ||
        db.members.any (fun mb => mb.channelId == cid && mb.userId == uid)
    | none => false) ||
   (match m.channelId, m.recipientId with
    | none, some rid => !(rid == uid)
    | _, _ => false))

/-- The `CHECK` constraint `check_message_target` on the `messages` table:
`(channel_id IS NOT NULL AND recipient_id IS NULL) OR (channel_id IS NULL AND
recipient_id IS NOT NULL)`. -/
def check_message_target (m : Message) : Bool :=
  (m.channelId.isSome && m.recipientId.isNone) ||
  (m.channelId.isNone && m.recipientId.isSome)

/-- The canonical DM key computed by the `update_dm_participants` trigger:
`(LEAST(user_id, recipient_id), GREATEST(user_id, recipient_id))`. -/
def canonicalKey (a b : Nat) : Nat × Nat := (min a b, max a b)

/-- The unordered pair of users a `direct_message_participants` row is about. -/
def pairKey (r : DMRow) : Nat × Nat := canonicalKey r.user1 r.user2

/-- The body of the `update_dm_participants` trigger, ignoring the
`check_different_users` constraint: `INSERT INTO direct_message_participants
(user1_id, user2_id, last_message_at) VALUES (LEAST(a,b), GREATEST(a,b), t)
ON CONFLICT (user1_id, user2_id) DO UPDATE SET last_message_at =
NEW.created_at`.  The conflict target is the ordered `(user1_id, user2_id)`
unique constraint. -/
def dmUpsert (dms : List DMRow) (a b t : Nat) : List DMRow :=
  let lo := min a b
  let hi := max a b
  if dms.any (fun r => r.user1 == lo && r.user2 == hi) then
    dms.map (fun r =>
      if r.user1 == lo && r.user2 == hi then { r with lastMessageAt := t } else r)
  else
    dms ++ [⟨lo, hi, t⟩]

/-- Errors raised by the store: the RLS denial, the two `CHECK` constraints
on `messages` and `direct_message_participants`, and a unique-key violation. -/
inductive SendError where
  | unauthorized
  | invalidTarget
  | differentUsers
  | uniqueViolation
deriving DecidableEq, Repr

/-- The `update_dm_participants` trigger including the
`check_different_users` constraint `user1_id != user2_id`, which the inserted
row `(LEAST(a,b), GREATEST(a,b))` violates exactly when `a = b`.  A constraint
violation inside the trigger aborts the whole transaction. -/
def update_dm_participants (dms : List DMRow) (authorId recipientId t : Nat) :
    Except SendError (List DMRow) :=
  if min authorId recipientId == max authorId recipientId then
    Except.error SendError.differentUsers
  else
    Except.ok (dmUpsert dms authorId recipientId t)

/-- An insert into the `messages` table guarded by the `check_message_target`
constraint alone (the table-level behaviour of `MessageLog.Append`): a
constraint violation rejects the row and leaves the table unchanged. -/
def appendMessage (log : List Message) (m : Message) :
    List Message × Option SendError :=
  if check_message_target m then (log ++ [m], none)
  else (log, some SendError.invalidTarget)

/-- One whole `INSERT INTO messages` transaction as the final migration set
leaves it: the RLS insert policy, the `check_message_target` constraint, and
the `on_dm_message_sent` AFTER INSERT trigger (`update_dm_participants`, run
when `recipient_id IS NOT NULL`).  Any failure aborts the transaction, so an
error leaves the database unchanged. -/
def sendMessage (db : DB) (uid : Nat) (m : Message) : Except SendError DB :=
  if !canPostMessagePolicy db uid m then Except.error SendError.unauthorized
  else if !check_message_target m then Except.error SendError.invalidTarget
  else
    match m.recipientId with
    | none => Except.ok { db with messages := db.messages ++ [m] }
    | some rid =>
        match update_dm_participants db.dms m.userId rid m.createdAt with
        | Except.error e => Except.error e
        | Except.ok dms' =>
            Except.ok { db with messages := db.messages ++ [m], dms := dms' }

/-- A direct client insert into `direct_message_participants`, as issued by
`useProfiles.fetchProfiles` (`insert { user1_id: user.id, user2_id:
profile.id }`, no canonicalization): guarded by the RLS policy "Users can
create their own DM conversations" (`auth.uid() = user1_id OR auth.uid() =
user2_id`), the `check_different_users` constraint, and the ordered
`UNIQUE(user1_id, user2_id)` constraint. -/
def dmInsertClient (dms : List DMRow) (uid : Nat) (r : DMRow) :
    Except SendError (List DMRow) :=
  if !(uid == r.user1 || uid == r.user2) then Except.error SendError.unauthorized
  else if r.user1 == r.user2 then Except.error SendError.differentUsers
  else if dms.any (fun x => x.user1 == r.user1 && x.user2 == r.user2) then
    Except.error SendError.uniqueViolation
  else Except.ok (dms ++ [r])

/-- `auto_join_public_channels` from the seed migration: on profile creation,
`INSERT INTO channel_members (channel_id, user_id, role) SELECT id, NEW.id,
'member' FROM channels WHERE is_private = false ON CONFLICT (channel_id,
user_id) DO NOTHING`. -/
def auto_join_public_channels :
    List Channel → List ChannelMember → Nat → List ChannelMember
  | [], ms, _ => ms
  | c :: cs, ms, uid =>
      if c.isPrivate then auto_join_public_channels cs ms uid
      else if ms.any (fun m => m.channelId == c.id && m.userId == uid) then
        auto_join_public_channels cs ms uid
      else auto_join_public_channels cs (ms ++ [⟨c.id, uid, "member"⟩]) uid

/-- Stable insertion of a message into a list sorted by `createdAt`. -/
def insertByTime (m : Message) : List Message → List Message
  | [] => [m]
  | x :: xs =>
      if m.createdAt ≤ x.createdAt then m :: x :: xs else x :: insertByTime m xs

/-- Sorting by `createdAt` only, stable in the stored order — the database
query `ORDER BY created_at ASC` constrains nothing but the timestamp order,
and this embedding realizes ties in table order. -/
def sortByTime : List Message → List Message
  | [] => []
  | x :: xs => insertByTime x (sortByTime xs)

/-- The channel branch of `useMessages.fetchMessages`:
`from('messages').select(...).order('created_at', ascending: true)
.eq('channel_id', channelId)`. -/
def fetchMessages (log : List Message) (cid : Nat) : List Message :=
  sortByTime (log.filter (fun m => m.channelId == some cid))

/-- Iterated `update_dm_participants` upserts for one pair (the effect of a
sequence of direct messages between the same two users). -/
def recordMany (dms : List DMRow) (a b : Nat) (ts : List Nat) : List DMRow :=
  ts.foldl (fun s t => dmUpsert s a b t) dms

/-- A whole history of DM upserts, each op being `(a, b, t)`. -/
def recordAll (ops : List (Nat × Nat × Nat)) : List DMRow :=
  ops.foldl (fun s op => dmUpsert s op.1 op.2.1 op.2.2) []

/-- Claim C6: the canonical DM key is symmetric — for every pair of user ids,
`canonicalKey a b = canonicalKey b a`, the key being
`(min a b, max a b)` as computed by `LEAST`/`GREATEST` in
`update_dm_participants`. -/
theorem canonicalKey_symm (a b : Nat) : canonicalKey a b = canonicalKey b a := by
  simp [canonicalKey, min_comm, max_comm]

/-- Claim C3: `CanViewChannel(u, c)` (the channels SELECT policy) is true iff
the channel is public or `u` has a membership row for it; unconditionally
true for public channels, and for a private channel true exactly for its
members. -/
theorem canViewChannel_iff (db : DB) (u : Nat) (c : Channel) :
    canViewChannelPolicy db u c = true ↔
      (c.isPrivate = false ∨
        ∃ mem ∈ db.members, mem.channelId = c.id ∧ mem.userId = u) := by
  simp [canViewChannelPolicy, is_channel_member, List.any_eq_true,
    Bool.or_eq_true, Bool.not_eq_true']

/-- Claim C1 (code divergence): the effective INSERT authorization on the
messages store — the definitive migration's policy `canPostMessagePolicy` —
authorizes user 1 to insert a channel message whose author (`user_id`) is
user 2, and also to insert a direct message authored by user 2 addressed to
user 1; the superseded 2025-01-07 policy `canPostMessageResetPolicies`
rejected both inserts because it required the author to equal the acting
user. -/
theorem canPostMessage_author_mismatch :
    (canPostMessagePolicy
      ⟨[⟨10, "general", false, none⟩], [⟨10, 1, "member"⟩], [], []⟩ 1
      ⟨100, "hello", 2, some 10, none, 0⟩ = true ∧
     (⟨100, "hello", 2, some 10, none, 0⟩ : Message).userId ≠ 1) ∧
    (canPostMessagePolicy
      ⟨[⟨10, "general", false, none⟩], [⟨10, 1, "member"⟩], [], []⟩ 1
      ⟨101, "hello", 2, none, some 1, 0⟩ = true ∧
     (⟨101, "hello", 2, none, some 1, 0⟩ : Message).userId ≠ 1) ∧
    canPostMessageResetPolicies
      ⟨[⟨10, "general", false, none⟩], [⟨10, 1, "member"⟩], [], []⟩ 1
      ⟨100, "hello", 2, some 10, none, 0⟩ = false ∧
    canPostMessageResetPolicies
      ⟨[⟨10, "general", false, none⟩], [⟨10, 1, "member"⟩], [], []⟩ 1
      ⟨101, "hello", 2, none, some 1, 0⟩ = false := by decide

/-- Claim C2 (counterexample): for a public channel (id 5) and a user (id 3)
with no membership row, the channels SELECT policy grants visibility of the
channel, but the messages SELECT policy denies visibility of a message
targeting that channel — so `CanViewMessage` does not delegate to
`CanViewChannel`. -/
theorem viewMessage_not_viewChannel :
    canViewChannelPolicy ⟨[⟨5, "general", false, none⟩], [], [], []⟩ 3
      ⟨5, "general", false, none⟩ = true ∧
    canViewMessagePolicy ⟨[⟨5, "general", false, none⟩], [], [], []⟩ 3
      ⟨1, "hello", 9, some 5, none, 0⟩ = false := by decide

/-- Claim C2 (amended): for a message targeting a channel (and no recipient),
the messages SELECT policy equals `is_channel_member` — membership in the
channel, regardless of the channel's privacy flag; for a message targeting a
recipient (and no channel), it is true iff the viewer is the author or the
recipient. -/
theorem canViewMessage_characterization (db : DB) (u : Nat) (m : Message) :
    (∀ cid, m.channelId = some cid → m.recipientId = none →
      canViewMessagePolicy db u m = is_channel_member db cid u) ∧
    (∀ rid, m.channelId = none → m.recipientId = some rid →
      (canViewMessagePolicy db u m = true ↔ (u = m.userId ∨ u = rid))) := by
  constructor
  · intro cid h1 h2
    simp [canViewMessagePolicy, h1, h2]
  · intro rid h1 h2
    simp [canViewMessagePolicy, h1, h2]

/-- Claim C2 (amended, witness): concrete instances of both branches of
`canViewMessage_characterization`. -/
theorem canViewMessage_characterization_witness :
    (canViewMessagePolicy ⟨[], [⟨7, 4, "member"⟩], [], []⟩ 4
      ⟨1, "hi", 9, some 7, none, 0⟩ =
        is_channel_member ⟨[], [⟨7, 4, "member"⟩], [], []⟩ 7 4) ∧
    (canViewMessagePolicy ⟨[], [], [], []⟩ 4
      ⟨2, "hi", 9, none, some 4, 0⟩ = true ↔ ((4 : Nat) = 9 ∨ (4 : Nat) = 4)) :=
  ⟨(canViewMessage_characterization ⟨[], [⟨7, 4, "member"⟩], [], []⟩ 4
      ⟨1, "hi", 9, some 7, none, 0⟩).1 7 rfl rfl,
   (canViewMessage_characterization ⟨[], [], [], []⟩ 4
      ⟨2, "hi", 9, none, some 4, 0⟩).2 4 rfl rfl⟩

/-- Claim C7: in any message log whose rows all satisfy the
`check_message_target` constraint, inserting a message that violates the
constraint (both targets set, or neither) is rejected with `invalidTarget`
and leaves the log unchanged, every row of the resulting log still satisfies
the constraint, and the constraint holds iff exactly one of
`channelId`/`recipientId` is non-null. -/
theorem appendMessage_target_xor (log : List Message) (m : Message)
    (hinv : ∀ x ∈ log, check_message_target x = true) :
    (check_message_target m = false →
      appendMessage log m = (log, some SendError.invalidTarget)) ∧
    (∀ x ∈ (appendMessage log m).1, check_message_target x = true) ∧
    (check_message_target m = true ↔
      ((m.channelId.isSome = true ∧ m.recipientId = none) ∨
       (m.channelId = none ∧ m.recipientId.isSome = true))) := by
  refine ⟨?_, ?_, ?_⟩
  · intro hbad
    simp [appendMessage, hbad]
  · intro x hx
    by_cases hc : check_message_target m
    · simp [appendMessage, hc] at hx
      rcases hx with hx | hx
      · exact hinv x hx
      · simpa [hx] using hc
    · simp [appendMessage, hc] at hx
      exact hinv x hx
  · cases hch : m.channelId <;> cases hrc : m.recipientId <;>
      simp [check_message_target, hch, hrc]

/-- Claim C7 (witness): inserting a message with neither target into the
empty log is rejected with `invalidTarget` and the log stays empty. -/
theorem appendMessage_target_xor_witness :
    appendMessage [] ⟨0, "x", 0, none, none, 0⟩ =
      ([], some SendError.invalidTarget) :=
  (appendMessage_target_xor [] ⟨0, "x", 0, none, none, 0⟩
    (by intro x hx; cases hx)).1 (by decide)

/-- Claim C10: a direct message whose recipient equals its author cannot be
committed: the RLS insert policy and the target constraint both pass, but the
`update_dm_participants` trigger tries to insert a conversation row with
`user1_id = user2_id`, which the `check_different_users` constraint rejects —
the whole transaction returns an error, so neither a message row nor a
conversation row is left behind. -/
theorem sendMessage_self_dm_fails (db : DB) (u : Nat) (m : Message)
    (h1 : m.userId = u) (h2 : m.recipientId = some u)
    (h3 : m.channelId = none) :
    sendMessage db u m = Except.error SendError.differentUsers := by
  subst h1
  simp [sendMessage, canPostMessagePolicy, check_message_target,
    update_dm_participants, h2, h3]

/-- Claim C10 (witness): user 4 sending a direct message to themselves fails
with the different-users constraint on any concrete database. -/
theorem sendMessage_self_dm_fails_witness :
    sendMessage ⟨[], [], [], []⟩ 4 ⟨1, "me", 4, none, some 4, 0⟩ =
      Except.error SendError.differentUsers :=
  sendMessage_self_dm_fails ⟨[], [], [], []⟩ 4 ⟨1, "me", 4, none, some 4, 0⟩
    rfl rfl rfl

/-- One upsert for a pair whose canonical row is the single stored row
overwrites its `lastMessageAt` with the new timestamp. -/
theorem dmUpsert_single (a b x t : Nat) :
    dmUpsert [⟨min a b, max a b, x⟩] a b t = [⟨min a b, max a b, t⟩] := by
  simp [dmUpsert]

/-- Iterating upserts for one pair over a single canonical row keeps a single
row and ends with the last timestamp of the sequence. -/
theorem recordMany_single (a b x : Nat) (ts : List Nat) :
    recordMany [⟨min a b, max a b, x⟩] a b ts =
      [⟨min a b, max a b, ts.getLastD x⟩] := by
  induction ts generalizing x with
  | nil => simp [recordMany]
  | cons t ts ih =>
      simp only [recordMany, List.foldl_cons, List.getLastD_cons]
      have h := dmUpsert_single a b x t
      rw [show (List.foldl (fun s t => dmUpsert s a b t)
            (dmUpsert [⟨min a b, max a b, x⟩] a b t) ts) =
          recordMany (dmUpsert [⟨min a b, max a b, x⟩] a b t) a b ts from rfl,
        h]
      exact ih t

/-- Claim C5 (counterexample): two `update_dm_participants` upserts for the
pair (1,2) with timestamps 5 then 3 leave `lastMessageAt = 3`, the timestamp
of the last call, not the maximum 5 — the trigger's `DO UPDATE SET
last_message_at = NEW.created_at` overwrites unconditionally. -/
theorem recordMany_not_max :
    recordMany [] 1 2 [5, 3] = [⟨1, 2, 3⟩] ∧ max 5 3 ≠ 3 := by decide

/-- Claim C5 (amended): for two distinct users, any sequence of N ≥ 1
`update_dm_participants` upserts starting from an empty store leaves exactly
one conversation row, keyed canonically, whose `lastMessageAt` equals the
timestamp of the LAST call (each upsert overwrites, last-write-wins). -/
theorem recordMany_lastWins (a b t : Nat) (ts : List Nat) (_hab : a ≠ b) :
    recordMany [] a b (t :: ts) =
      [⟨min a b, max a b, ts.getLastD t⟩] := by
  simp only [recordMany, List.foldl_cons]
  have h0 : dmUpsert [] a b t = [⟨min a b, max a b, t⟩] := by
    simp [dmUpsert]
  rw [show (List.foldl (fun s t => dmUpsert s a b t) (dmUpsert [] a b t) ts) =
      recordMany (dmUpsert [] a b t) a b ts from rfl, h0]
  exact recordMany_single a b t ts

/-- Claim C5 (amended, witness): upserts for pair (1,2) with timestamps 5
then 7 leave the single row with `lastMessageAt = 7`. -/
theorem recordMany_lastWins_witness :
    recordMany [] 1 2 [5, 7] = [⟨1, 2, 7⟩] := by
  have h := recordMany_lastWins 1 2 5 [7] (by decide)
  simpa using h

/-- At most one `direct_message_participants` row per unordered user pair. -/
def onePerPair (dms : List DMRow) : Prop :=
  dms.Pairwise (fun r1 r2 => pairKey r1 ≠ pairKey r2)

/-- Every stored row is in canonical order, `user1 ≤ user2`. -/
def canonicalRows (dms : List DMRow) : Prop :=
  ∀ r ∈ dms, r.user1 ≤ r.user2

/-- The unordered key of a canonical row is its ordered field pair. -/
theorem pairKey_of_canonical (r : DMRow) (h : r.user1 ≤ r.user2) :
    pairKey r = (r.user1, r.user2) := by
  simp [pairKey, canonicalKey, min_eq_left h, max_eq_right h]

/-- The trigger upsert preserves both DM-store invariants: canonical rows and
at most one row per unordered pair. -/
theorem dmUpsert_preserves (dms : List DMRow) (a b t : Nat)
    (h1 : onePerPair dms) (h2 : canonicalRows dms) :
    onePerPair (dmUpsert dms a b t) ∧ canonicalRows (dmUpsert dms a b t) := by
  unfold dmUpsert
  by_cases hex : dms.any (fun r => r.user1 == min a b && r.user2 == max a b)
  · simp only [hex, if_true]
    constructor
    · unfold onePerPair
      rw [List.pairwise_map]
      have hkey : ∀ r : DMRow,
          pairKey (if r.user1 == min a b && r.user2 == max a b then
            { r with lastMessageAt := t } else r) = pairKey r := by
        intro r; split <;> rfl
      refine h1.imp ?_
      intro r1 r2 hne
      rw [hkey r1, hkey r2]
      exact hne
    · intro r hr
      rw [List.mem_map] at hr
      obtain ⟨r', hr', hre⟩ := hr
      have : r.user1 = r'.user1 ∧ r.user2 = r'.user2 := by
        subst hre; split <;> exact ⟨rfl, rfl⟩
      rw [this.1, this.2]
      exact h2 r' hr'
  · rw [if_neg hex]
    simp only [Bool.not_eq_true] at hex
    have hnone : ∀ r ∈ dms, ¬(r.user1 = min a b ∧ r.user2 = max a b) := by
      intro r hr
      rw [List.any_eq_false] at hex
      have := hex r hr
      simp only [Bool.and_eq_true, beq_iff_eq] at this
      tauto
    constructor
    · unfold onePerPair
      rw [List.pairwise_append]
      refine ⟨h1, List.pairwise_singleton _ _, ?_⟩
      intro r hr y hy
      rw [List.mem_singleton] at hy
      subst hy
      rw [pairKey_of_canonical r (h2 r hr),
        pairKey_of_canonical ⟨min a b, max a b, t⟩ (min_le_max)]
      intro hcontra
      exact hnone r hr ⟨congrArg Prod.fst hcontra, congrArg Prod.snd hcontra⟩
    · intro r hr
      rw [List.mem_append] at hr
      rcases hr with hr | hr
      · exact h2 r hr
      · rw [List.mem_singleton] at hr
        subst hr
        exact min_le_max

/-- A history of trigger upserts starting from invariant-satisfying state
keeps both invariants. -/
theorem recordAll_aux (ops : List (Nat × Nat × Nat)) (dms : List DMRow)
    (h1 : onePerPair dms) (h2 : canonicalRows dms) :
    onePerPair (ops.foldl (fun s op => dmUpsert s op.1 op.2.1 op.2.2) dms) ∧
    canonicalRows (ops.foldl (fun s op => dmUpsert s op.1 op.2.1 op.2.2) dms) := by
  induction ops generalizing dms with
  | nil => exact ⟨h1, h2⟩
  | cons op ops ih =>
      simp only [List.foldl_cons]
      obtain ⟨p1, p2⟩ := dmUpsert_preserves dms op.1 op.2.1 op.2.2 h1 h2
      exact ih _ p1 p2

/-- Claim C4 (amended): every history of `update_dm_participants` upserts,
starting from an empty store, yields a state with at most one conversation
row per unordered user pair — the trigger's `LEAST`/`GREATEST`
canonicalization makes `(a,b)` and `(b,a)` hit the same ordered unique key. -/
theorem recordAll_onePerPair (ops : List (Nat × Nat × Nat)) :
    onePerPair (recordAll ops) := by
  have h := recordAll_aux ops []
    (by unfold onePerPair; exact List.Pairwise.nil)
    (by intro r hr; cases hr)
  exact h.1

/-- Claim C4 (counterexample): a direct client insert of the reversed pair
`(2,1)` into a store already holding `(1,2)` passes the RLS policy, the
different-users constraint, and the ordered `UNIQUE(user1_id, user2_id)`
constraint — leaving two distinct rows for the same unordered pair. -/
theorem dmInsertClient_reversed_pair :
    dmInsertClient [] 1 ⟨1, 2, 0⟩ = Except.ok [⟨1, 2, 0⟩] ∧
    dmInsertClient [⟨1, 2, 0⟩] 2 ⟨2, 1, 0⟩ =
      Except.ok [⟨1, 2, 0⟩, ⟨2, 1, 0⟩] ∧
    pairKey ⟨1, 2, 0⟩ = pairKey ⟨2, 1, 0⟩ ∧
    (⟨1, 2, 0⟩ : DMRow) ≠ ⟨2, 1, 0⟩ :=
  ⟨rfl, rfl, by decide, by decide⟩

/-- `auto_join_public_channels` only appends rows: the prior membership rows
survive unchanged as a prefix of the result. -/
theorem autoJoin_extends (channels : List Channel) (ms : List ChannelMember)
    (uid : Nat) :
    ∃ rest, auto_join_public_channels channels ms uid = ms ++ rest := by
  induction channels generalizing ms with
  | nil => exact ⟨[], by simp [auto_join_public_channels]⟩
  | cons c cs ih =>
      by_cases hp : c.isPrivate
      · obtain ⟨rest, h⟩ := ih ms
        exact ⟨rest, by simp [auto_join_public_channels, hp, h]⟩
      · by_cases hm : ms.any (fun m => m.channelId == c.id && m.userId == uid)
        · obtain ⟨rest, h⟩ := ih ms
          exact ⟨rest, by simp [auto_join_public_channels, hp, hm, h]⟩
        · obtain ⟨rest, h⟩ := ih (ms ++ [⟨c.id, uid, "member"⟩])
          refine ⟨⟨c.id, uid, "member"⟩ :: rest, ?_⟩
          simp [auto_join_public_channels, hp, hm, h]

/-- A membership check that holds before `auto_join_public_channels` still
holds afterwards. -/
theorem autoJoin_any_mono (channels : List Channel) (ms : List ChannelMember)
    (uid : Nat) (p : ChannelMember → Bool) (h : ms.any p = true) :
    (auto_join_public_channels channels ms uid).any p = true := by
  obtain ⟨rest, hre⟩ := autoJoin_extends channels ms uid
  rw [hre, List.any_append, h, Bool.true_or]

/-- After the auto-join trigger runs, every channel public at that moment has
a membership row for the new user. -/
theorem autoJoin_covers (channels : List Channel) (ms : List ChannelMember)
    (uid : Nat) :
    ∀ c ∈ channels, c.isPrivate = false →
      (auto_join_public_channels channels ms uid).any
        (fun m => m.channelId == c.id && m.userId == uid) = true := by
  induction channels generalizing ms with
  | nil => intro c hc; cases hc
  | cons c0 cs ih =>
      intro c hc hpub
      rcases List.mem_cons.mp hc with hce | hcs
      · subst hce
        rw [show auto_join_public_channels (c :: cs) ms uid =
            (if c.isPrivate then auto_join_public_channels cs ms uid
             else if ms.any (fun m => m.channelId == c.id && m.userId == uid)
               then auto_join_public_channels cs ms uid
             else auto_join_public_channels cs
               (ms ++ [⟨c.id, uid, "member"⟩]) uid) from rfl, hpub]
        simp only [Bool.false_eq_true, if_false]
        by_cases hm : ms.any (fun m => m.channelId == c.id && m.userId == uid)
        · rw [if_pos hm]
          exact autoJoin_any_mono cs ms uid _ hm
        · rw [if_neg hm]
          refine autoJoin_any_mono cs _ uid _ ?_
          rw [List.any_append]
          simp
      · by_cases hp : c0.isPrivate
        · rw [show auto_join_public_channels (c0 :: cs) ms uid =
              auto_join_public_channels cs ms uid from by
                simp [auto_join_public_channels, hp]]
          exact ih ms c hcs hpub
        · by_cases hm : ms.any (fun m => m.channelId == c0.id && m.userId == uid)
          · rw [show auto_join_public_channels (c0 :: cs) ms uid =
                auto_join_public_channels cs ms uid from by
                  simp [auto_join_public_channels, hp, hm]]
            exact ih ms c hcs hpub
          · rw [show auto_join_public_channels (c0 :: cs) ms uid =
                auto_join_public_channels cs
                  (ms ++ [⟨c0.id, uid, "member"⟩]) uid from by
                  simp [auto_join_public_channels, hp, hm]]
            exact ih _ c hcs hpub

/-- If every public channel of the list already has a membership row for the
user, the auto-join trigger is a no-op: every insert hits `ON CONFLICT DO
NOTHING`. -/
theorem autoJoin_noop (channels : List Channel) (ms : List ChannelMember)
    (uid : Nat)
    (h : ∀ c ∈ channels, c.isPrivate = false →
      ms.any (fun m => m.channelId == c.id && m.userId == uid) = true) :
    auto_join_public_channels channels ms uid = ms := by
  induction channels generalizing ms with
  | nil => simp [auto_join_public_channels]
  | cons c cs ih =>
      by_cases hp : c.isPrivate
      · rw [show auto_join_public_channels (c :: cs) ms uid =
            auto_join_public_channels cs ms uid from by
              simp [auto_join_public_channels, hp]]
        exact ih ms (fun c' hc' => h c' (List.mem_cons_of_mem _ hc'))
      · have hm := h c (List.mem_cons_self _ _) (by simpa using hp)
        rw [show auto_join_public_channels (c :: cs) ms uid =
            auto_join_public_channels cs ms uid from by
              simp [auto_join_public_channels, hp, hm]]
        exact ih ms (fun c' hc' => h c' (List.mem_cons_of_mem _ hc'))

/-- Claim C9: on user creation the trigger creates a membership row in every
currently-public channel, the run only appends rows (existing rows are left
unchanged), and the operation is idempotent — re-running it is a no-op
because every insert for an existing `(channel, user)` pair hits
`ON CONFLICT (channel_id, user_id) DO NOTHING`. -/
theorem autoJoin_spec (channels : List Channel) (ms : List ChannelMember)
    (uid : Nat) :
    (∀ c ∈ channels, c.isPrivate = false →
      (auto_join_public_channels channels ms uid).any
        (fun m => m.channelId == c.id && m.userId == uid) = true) ∧
    auto_join_public_channels channels
      (auto_join_public_channels channels ms uid) uid =
      auto_join_public_channels channels ms uid ∧
    ∃ rest, auto_join_public_channels channels ms uid = ms ++ rest := by
  refine ⟨autoJoin_covers channels ms uid, ?_, autoJoin_extends channels ms uid⟩
  exact autoJoin_noop channels _ uid (autoJoin_covers channels ms uid)

/-- Claim C9 (witness): a new user (id 9) is auto-joined to the public
channel 1, and re-running the trigger changes nothing. -/
theorem autoJoin_spec_witness :
    (auto_join_public_channels [⟨1, "general", false, none⟩] [] 9).any
      (fun m => m.channelId == 1 && m.userId == 9) = true ∧
    auto_join_public_channels [⟨1, "general", false, none⟩]
      (auto_join_public_channels [⟨1, "general", false, none⟩] [] 9) 9 =
      auto_join_public_channels [⟨1, "general", false, none⟩] [] 9 :=
  ⟨(autoJoin_spec [⟨1, "general", false, none⟩] [] 9).1
      ⟨1, "general", false, none⟩ (by simp) rfl,
   (autoJoin_spec [⟨1, "general", false, none⟩] [] 9).2.1⟩

/-- Membership in an insertion: the inserted list holds the new message and
the old ones. -/
theorem mem_insertByTime (m y : Message) (l : List Message) :
    y ∈ insertByTime m l ↔ y = m ∨ y ∈ l := by
  induction l with
  | nil => simp [insertByTime]
  | cons x xs ih =>
      by_cases h : m.createdAt ≤ x.createdAt
      · simp [insertByTime, h]
      · simp [insertByTime, h, ih]
        tauto

/-- Inserting into a list non-decreasing by `createdAt` keeps it
non-decreasing. -/
theorem insertByTime_sorted (m : Message) (l : List Message)
    (h : l.Pairwise (fun a b => a.createdAt ≤ b.createdAt)) :
    (insertByTime m l).Pairwise (fun a b => a.createdAt ≤ b.createdAt) := by
  induction l with
  | nil => simp [insertByTime]
  | cons x xs ih =>
      rw [List.pairwise_cons] at h
      by_cases hle : m.createdAt ≤ x.createdAt
      · rw [show insertByTime m (x :: xs) = m :: x :: xs from by
          simp [insertByTime, hle]]
        rw [List.pairwise_cons]
        constructor
        · intro y hy
          rcases List.mem_cons.mp hy with hy | hy
          · subst hy; exact hle
          · exact le_trans hle (h.1 y hy)
        · rw [List.pairwise_cons]
          exact h
      · rw [show insertByTime m (x :: xs) = x :: insertByTime m xs from by
          simp [insertByTime, hle]]
        rw [List.pairwise_cons]
        constructor
        · intro y hy
          rcases (mem_insertByTime m y xs).mp hy with hy | hy
          · subst hy; exact le_of_not_le hle
          · exact h.1 y hy
        · exact ih h.2

/-- The sort used by the message query returns a list non-decreasing by
`createdAt`. -/
theorem sortByTime_sorted (l : List Message) :
    (sortByTime l).Pairwise (fun a b => a.createdAt ≤ b.createdAt) := by
  induction l with
  | nil => simp [sortByTime]
  | cons x xs ih => exact insertByTime_sorted x (sortByTime xs) ih

/-- Sorting a list that is already non-decreasing by `createdAt` returns it
unchanged. -/
theorem sortByTime_of_sorted (l : List Message)
    (h : l.Pairwise (fun a b => a.createdAt ≤ b.createdAt)) :
    sortByTime l = l := by
  induction l with
  | nil => rfl
  | cons x xs ih =>
      rw [List.pairwise_cons] at h
      rw [show sortByTime (x :: xs) = insertByTime x (sortByTime xs) from rfl,
        ih h.2]
      cases xs with
      | nil => rfl
      | cons y ys =>
          have hxy : x.createdAt ≤ y.createdAt :=
            h.1 y (List.mem_cons_self _ _)
          simp [insertByTime, hxy]

/-- Claim C8 (counterexample): a channel log holding two messages with equal
timestamps in descending-id order is returned by the query in that same
(stored) order — the query orders by `created_at` only, so the result is not
non-decreasing in the pair `(createdAt, id)`. -/
theorem fetchMessages_no_id_tiebreak :
    fetchMessages [⟨2, "b", 0, some 7, none, 5⟩, ⟨1, "a", 0, some 7, none, 5⟩]
      7 = [⟨2, "b", 0, some 7, none, 5⟩, ⟨1, "a", 0, some 7, none, 5⟩] ∧
    (⟨2, "b", 0, some 7, none, 5⟩ : Message).createdAt =
      (⟨1, "a", 0, some 7, none, 5⟩ : Message).createdAt ∧
    (⟨1, "a", 0, some 7, none, 5⟩ : Message).id <
      (⟨2, "b", 0, some 7, none, 5⟩ : Message).id := by
  refine ⟨?_, rfl, by decide⟩
  rfl

/-- Claim C8 (amended): the channel query returns messages non-decreasing by
`createdAt` (the only ordering the query requests; equal timestamps come back
in stored order, with no id tie-break), and a log of messages all in the
queried channel with strictly increasing timestamps is returned exactly in
insertion order. -/
theorem fetchMessages_ordering (log : List Message) (cid : Nat) :
    (fetchMessages log cid).Pairwise
      (fun a b => a.createdAt ≤ b.createdAt) ∧
    ((∀ m ∈ log, m.channelId = some cid) →
      log.Pairwise (fun a b => a.createdAt < b.createdAt) →
      fetchMessages log cid = log) := by
  constructor
  · exact sortByTime_sorted _
  · intro hall hsorted
    have hfilter : log.filter (fun m => m.channelId == some cid) = log := by
      rw [List.filter_eq_self]
      intro m hm
      simp [hall m hm]
    rw [fetchMessages, hfilter]
    exact sortByTime_of_sorted log (hsorted.imp le_of_lt)

/-- Claim C8 (amended, witness): two messages in channel 7 with strictly
increasing timestamps are returned in insertion order. -/
theorem fetchMessages_ordering_witness :
    fetchMessages [⟨1, "a", 0, some 7, none, 1⟩, ⟨2, "b", 0, some 7, none, 2⟩]
      7 = [⟨1, "a", 0, some 7, none, 1⟩, ⟨2, "b", 0, some 7, none, 2⟩] :=
  (fetchMessages_ordering
    [⟨1, "a", 0, some 7, none, 1⟩, ⟨2, "b", 0, some 7, none, 2⟩] 7).2
    (by intro m hm; rcases List.mem_cons.mp hm with h | h
        · subst h; rfl
        · rcases List.mem_cons.mp h with h | h
          · subst h; rfl
          · cases h)
    (by simp [List.pairwise_cons])
